import Mathlib

/-!
# Verification of the Stonkbot ledger-and-forecast engine

Shallow embedding of the Stonkbot repository (src/stonkbot): the per-user
weekly ledger (`WeekData`) with its rollover state machine, the record
tracker (`Record`), the pattern-probability weighting in
`WeekData.predictions`, the cross-user aggregation in `db._islands_to_stats`
and `db.all_stats`, time-period inference in `utils.datetime_to_timeperiod`,
and the `db.log` entry point.

Conventions of the embedding:
* Python `datetime` values are modelled by `DT` below: an absolute local-day
  index (`day : Int`, with day 0 chosen to be Sunday 2020-03-15) plus the
  seconds elapsed since local midnight (`sec : Nat`).  All datetimes of one
  ledger are expressed in the ledger's own timezone, so the timezone itself
  needs no model; "now" is threaded as an explicit argument.
* Python `date` values are modelled by their day index (`Int`) on the same
  scale.
* The external `turnips` pattern-model provider (an external collaborator in
  the spec) is abstracted as a `Provider` structure handing back the list of
  candidate model types and the per-slot price histogram, exactly the two
  projections the engine consumes.
* `TimePeriod` is `Fin 14` with `Sunday_AM = 0 … Saturday_PM = 13`.
* Python dicts keyed by `TimePeriod` become functions `Fin 14 → Option Int`;
  dicts keyed by slot used during aggregation become association lists.
-/

namespace Stonkbot

/-- The closed pattern enumeration of the turnips provider (`ModelEnum`):
four real patterns plus `unknown`. -/
inductive ModelEnum where
  | triple
  | spike
  | decay
  | bump
  | unknown
deriving DecidableEq, Repr

/-- The integer value of each `ModelEnum` member, as used by
`WeekData.predictions` to index the weight matrix and population counts
(`triple = 0, spike = 1, decay = 2, bump = 3, unknown = 4`). -/
def ModelEnum.value : ModelEnum → Nat
  | .triple => 0
  | .spike => 1
  | .decay => 2
  | .bump => 3
  | .unknown => 4

/-- A local datetime: absolute day index (day 0 = Sunday 2020-03-15, so
`day % 7 = 0` means Sunday, matching Python's `isoweekday() % 7 = 0`) and
seconds since local midnight. -/
structure DT where
  day : Int
  sec : Nat
deriving DecidableEq, Repr

/-- Strict order on datetimes (Python `datetime` comparison within one
timezone): lexicographic on (day, second-of-day). -/
def DT.lt (a b : DT) : Prop :=
  a.day < b.day ∨ (a.day = b.day ∧ a.sec < b.sec)

instance (a b : DT) : Decidable (DT.lt a b) := by
  unfold DT.lt
  exact inferInstance

/-- Python `isoweekday() % 7`: 0 = Sunday … 6 = Saturday. -/
def DT.weekday (d : DT) : Nat := (d.day % 7).toNat

/-- The most recent weekly boundary: the start (midnight) of the current
Sunday, i.e. `now.replace(hour=0, …) - timedelta(days=now.isoweekday() % 7)`
from `WeekData.is_current_week`. -/
def sundayOf (now : DT) : DT := ⟨now.day - now.day % 7, 0⟩

/-- The weekly boundary before that (`last_sunday` in
`WeekData.is_last_week`). -/
def lastSundayOf (now : DT) : DT := ⟨now.day - now.day % 7 - 7, 0⟩

/-- `WeekData.is_current_week`: `updated > sunday`. -/
def is_current_week (updated now : DT) : Prop :=
  DT.lt (sundayOf now) updated

instance (u n : DT) : Decidable (is_current_week u n) := by
  unfold is_current_week
  exact inferInstance

/-- `WeekData.is_last_week`: `sunday > updated > last_sunday`. -/
def is_last_week (updated now : DT) : Prop :=
  DT.lt updated (sundayOf now) ∧ DT.lt (lastSundayOf now) updated

instance (u n : DT) : Decidable (is_last_week u n) := by
  unfold is_last_week
  exact inferInstance

/-- `models.Record`: the best-price-so-far tracker. `date` is a day index. -/
structure Record where
  price : Int
  date : Int
  is_am : Bool
deriving DecidableEq, Repr

/-- `Record.set_price`: overwrite price and am/pm flag, stamping today's
date (`date.today()` is passed in as `today`). -/
def Record.set_price (_r : Record) (price : Int) (is_am : Bool) (today : Int) : Record :=
  { price := price, date := today, is_am := is_am }

/-- Python's `date.min` (0001-01-01) as a day index on our scale
(2020-03-15 has proleptic-Gregorian ordinal 737499, date.min has ordinal 1). -/
def dateMin : Int := 1 - 737499

/-- The `WeekData` dataclass default `updated = datetime(2020, 3, 20)`:
2020-03-20 is the Friday five days after Sunday 2020-03-15 (= day 0). -/
def defaultUpdated : DT := ⟨5, 0⟩

/-- `models.WeekData`: the per-user ledger. The timeline maps each of the 14
weekly slots to its logged price, if any. -/
structure WeekData where
  name : String
  timeline : Fin 14 → Option Int
  _initial_week : Bool
  _previous_week : ModelEnum
  updated : DT
  record : Record
  tz_name : String

/-- The slot `TimePeriod.Sunday_AM` (index 0). -/
def sundayAM : Fin 14 := ⟨0, by decide⟩

/-- The slot `TimePeriod.Monday_AM` (index 2). -/
def mondayAM : Fin 14 := ⟨2, by decide⟩

/-- The abstract pattern-model provider (the external `turnips` package,
which the spec treats as an external collaborator).  `modelTypes` receives
exactly the data `WeekData.models` feeds it — the `_initial_week` flag
(BumpModels vs `MetaModel.blank`), the Sunday base price, and the fixed
post-Sunday prices — and returns the `model_type` of each candidate model.
`histogram` returns, per slot, the mapping price ↦ count of candidate
models, as an association list. -/
structure Provider where
  modelTypes : Bool → Option Int → (Fin 14 → Option Int) → List ModelEnum
  histogram : Bool → Option Int → (Fin 14 → Option Int) → List (Fin 14 × List (Int × Nat))

/-- The Sunday buy price `self.timeline.get(TimePeriod.Sunday_AM)` used as
the models' base price. -/
def modelsBase (timeline : Fin 14 → Option Int) : Option Int := timeline sundayAM

/-- The prices `WeekData.models` fixes: every timeline entry at or after
`Monday_AM` (`time.value < TimePeriod.Monday_AM.value` entries are skipped). -/
def fixedPrices (timeline : Fin 14 → Option Int) : Fin 14 → Option Int :=
  fun t => if 2 ≤ t.val then timeline t else none

/-- The candidate model types of a ledger state, via the provider
(`WeekData.models` followed by taking each model's `model_type`). -/
def modelTypesOf (P : Provider) (initialWeek : Bool) (timeline : Fin 14 → Option Int) :
    List ModelEnum :=
  P.modelTypes initialWeek (modelsBase timeline) (fixedPrices timeline)

/-- `WeekData.current_pattern`: count the distinct `model_type`s of the
candidate models; if exactly one distinct type occurs return it, else
`unknown`. -/
def currentPatternOf (P : Provider) (initialWeek : Bool)
    (timeline : Fin 14 → Option Int) : ModelEnum :=
  match (modelTypesOf P initialWeek timeline).dedup with
  | [t] => t
  | _ => ModelEnum.unknown

/-- `WeekData.current_pattern` as a method on the ledger. -/
def WeekData.current_pattern (P : Provider) (w : WeekData) : ModelEnum :=
  currentPatternOf P w._initial_week w.timeline

/-- `WeekData.set_price` (models.py:49-62): roll the week over if the ledger
is stale (snapshotting `current_pattern` into `_previous_week` when the data
is from last week), then apply the price: a non-zero price is written into
the timeline and promoted into the record if it beats it; a zero price
deletes the slot.  Finally stamp `updated = now`. -/
def WeekData.set_price (P : Provider) (w : WeekData) (price : Int) (time : Fin 14)
    (now : DT) (today : Int) : WeekData :=
  let w1 :=
    if is_current_week w.updated now then w
    else
      let w0 :=
        if is_last_week w.updated now then
          { w with _previous_week := w.current_pattern P, _initial_week := false }
        else w
      { w0 with timeline := fun _ => none }
  let w2 :=
    if price ≠ 0 then
      let w1' := { w1 with timeline := Function.update w1.timeline time (some price) }
      if w1'.record.price < price then
        { w1' with record := w1'.record.set_price price (time.val % 2 == 1) today }
      else w1'
    else
      { w1 with timeline := Function.update w1.timeline time none }
  { w2 with updated := now }

/-- C10: the derived week-state predicates are mutually exclusive — at any
single evaluation instant `now`, `is_current_week` and `is_last_week` can
never both hold for the same `updated` timestamp, so the rollover branch
choice in `set_price` is unambiguous. -/
theorem week_states_mutually_exclusive (updated now : DT) :
    ¬(is_current_week updated now ∧ is_last_week updated now) := by
  rintro ⟨hcur, hlast, -⟩
  unfold is_current_week at hcur
  unfold sundayOf at hcur hlast
  unfold DT.lt at hcur hlast
  rcases hcur with h1 | ⟨h1, h1s⟩ <;> rcases hlast with h2 | ⟨h2, h2s⟩ <;> simp_all <;>
    omega

/-- A trivial provider instance (no candidate models, empty histograms),
used to instantiate witnesses and counterexamples. -/
def Ptriv : Provider := ⟨fun _ _ _ => [], fun _ _ _ => []⟩

/-- `WeekData(name=…, timeline={})`: the construction used by `db.log`,
`db.rename` and `db.set_timezone` for unseen keys, with every other field at
its dataclass default. -/
def mkWeekData (name : String) : WeekData :=
  { name := name
    timeline := fun _ => none
    _initial_week := false
    _previous_week := ModelEnum.unknown
    updated := defaultUpdated
    record := { price := 0, date := dateMin, is_am := false }
    tz_name := "" }

/-- The timeline produced by `set_price`: the pre-write timeline survives
only in the current-week state (otherwise it is cleared), and the written
slot ends at `price` (deleted when `price = 0`). -/
theorem set_price_timeline (P : Provider) (w : WeekData) (price : Int) (time : Fin 14)
    (now : DT) (today : Int) :
    (WeekData.set_price P w price time now today).timeline
      = Function.update
          (if is_current_week w.updated now then w.timeline else fun _ => none)
          time (if price = 0 then none else some price) := by
  by_cases h1 : is_current_week w.updated now <;>
    by_cases h2 : is_last_week w.updated now <;>
    by_cases h3 : price = 0 <;>
    simp only [WeekData.set_price, h1, h2, h3, if_true, if_false, ite_true, ite_false,
      ne_eq, not_true_eq_false, not_false_eq_true] <;>
    split_ifs <;> rfl

/-- `_previous_week` after `set_price`: snapshotted from `current_pattern`
of the pre-write state exactly in the last-week rollover branch. -/
theorem set_price_previous_week (P : Provider) (w : WeekData) (price : Int) (time : Fin 14)
    (now : DT) (today : Int) :
    (WeekData.set_price P w price time now today)._previous_week
      = if is_current_week w.updated now then w._previous_week
        else if is_last_week w.updated now then w.current_pattern P
        else w._previous_week := by
  by_cases h1 : is_current_week w.updated now <;>
    by_cases h2 : is_last_week w.updated now <;>
    by_cases h3 : price = 0 <;>
    simp only [WeekData.set_price, h1, h2, h3, if_true, if_false, ite_true, ite_false,
      ne_eq, not_true_eq_false, not_false_eq_true] <;>
    split_ifs <;> rfl

/-- The record after `set_price`: overwritten exactly when a non-zero price
beats the stored one. -/
theorem set_price_record (P : Provider) (w : WeekData) (price : Int) (time : Fin 14)
    (now : DT) (today : Int) :
    (WeekData.set_price P w price time now today).record
      = if price ≠ 0 ∧ w.record.price < price
        then { price := price, date := today, is_am := time.val % 2 == 1 }
        else w.record := by
  by_cases h1 : is_current_week w.updated now <;>
    by_cases h2 : is_last_week w.updated now <;>
    by_cases h3 : price = 0 <;>
    by_cases h4 : w.record.price < price <;>
    simp [WeekData.set_price, Record.set_price, h1, h2, h3, h4]

/-- C1: rollover state machine of `WeekData.set_price`.  For a stale ledger
(`¬ is_current_week`), logging a positive price leaves a timeline holding
only the new slot/price pair; in the `Older` state (not last week)
`_previous_week` is untouched, while in the `LastWeek` state it is first set
to `current_pattern` — the unanimous candidate-model pattern of the
*pre-rollover* timeline, `unknown` when the candidates disagree (that is the
definition of `currentPatternOf`). -/
theorem set_price_rollover (P : Provider) (w : WeekData) (price : Int) (time : Fin 14)
    (now : DT) (today : Int) (hp : 0 < price)
    (hcur : ¬ is_current_week w.updated now) :
    (WeekData.set_price P w price time now today).timeline
        = Function.update (fun _ => none) time (some price) ∧
    (¬ is_last_week w.updated now →
      (WeekData.set_price P w price time now today)._previous_week = w._previous_week) ∧
    (is_last_week w.updated now →
      (WeekData.set_price P w price time now today)._previous_week
        = w.current_pattern P) := by
  refine ⟨?_, ?_, ?_⟩
  · rw [set_price_timeline, if_neg hcur, if_neg hp.ne']
  · intro hlast
    rw [set_price_previous_week, if_neg hcur, if_neg hlast]
  · intro hlast
    rw [set_price_previous_week, if_neg hcur, if_pos hlast]

/-- An `Older` ledger (default `updated = 2020-03-20`, evaluated four weeks
later): fixture for the C1 witness. -/
def wOld : WeekData := mkWeekData "old island"

/-- Witness for C1 at a concrete input: day 30 is 25 days after the default
`updated`, so the ledger is in the `Older` state and `_previous_week`
survives the write of price 100 unchanged. -/
theorem set_price_rollover_witness :
    (WeekData.set_price Ptriv wOld 100 mondayAM ⟨30, 0⟩ 30)._previous_week
      = wOld._previous_week :=
  (set_price_rollover Ptriv wOld 100 mondayAM ⟨30, 0⟩ 30 (by decide)
    (by decide)).2.1 (by decide)

/-- One `set_price` invocation, as data: the price and slot passed in plus
the wall-clock instant at which the call happens. -/
structure Call where
  price : Int
  slot : Fin 14
  now : DT
  today : Int

/-- A finite sequence of `set_price` calls applied to one ledger. -/
def applyCalls (P : Provider) (w : WeekData) (calls : List Call) : WeekData :=
  calls.foldl (fun acc c => WeekData.set_price P acc c.price c.slot c.now c.today) w

/-- The running maximum of the positive prices in a call sequence, started
from `init`. -/
def posFold (calls : List Call) (init : Int) : Int :=
  calls.foldl (fun m c => if 0 < c.price then max m c.price else m) init

/-- With a nonnegative stored record, one `set_price` step turns the record
price into the max with the incoming price when that price is positive, and
leaves it alone otherwise. -/
theorem record_step_eq (P : Provider) (w : WeekData) (price : Int) (time : Fin 14)
    (now : DT) (today : Int) (h : 0 ≤ w.record.price) :
    (WeekData.set_price P w price time now today).record.price
      = if 0 < price then max w.record.price price else w.record.price := by
  rw [set_price_record]
  by_cases hpos : 0 < price
  · by_cases hbeat : w.record.price < price
    · simp [hpos, hbeat, hpos.ne', max_eq_right hbeat.le]
    · simp [hpos, hbeat, max_eq_left (not_lt.mp hbeat)]
  · have : ¬ w.record.price < price := by omega
    simp [hpos, this]

/-- The record price never decreases across one `set_price` step. -/
theorem record_step_le (P : Provider) (w : WeekData) (price : Int) (time : Fin 14)
    (now : DT) (today : Int) :
    w.record.price ≤ (WeekData.set_price P w price time now today).record.price := by
  rw [set_price_record]
  split_ifs with h
  · exact h.2.le
  · exact le_refl _

/-- The record price never decreases across any call list. -/
theorem record_applyCalls_le (P : Provider) (calls : List Call) (w : WeekData) :
    w.record.price ≤ (applyCalls P w calls).record.price := by
  induction calls generalizing w with
  | nil => exact le_refl _
  | cons c t ih =>
      exact le_trans (record_step_le P w c.price c.slot c.now c.today)
        (ih (WeekData.set_price P w c.price c.slot c.now c.today))

/-- C3 (amended): across any finite sequence of `set_price` calls the record
price is non-decreasing from any prefix on, and — when the initial record
price is nonnegative, as it is for every ledger the program constructs —
the final record price is the maximum of the initial record price and every
price passed with `price > 0` (so the initial value when no positive price
was ever passed). -/
theorem record_price_monotone_max (P : Provider) (w : WeekData) (calls : List Call)
    (h0 : 0 ≤ w.record.price) :
    (∀ l1 l2, calls = l1 ++ l2 →
        (applyCalls P w l1).record.price ≤ (applyCalls P w calls).record.price) ∧
    (applyCalls P w calls).record.price = posFold calls w.record.price := by
  constructor
  · intro l1 l2 hsplit
    subst hsplit
    have h := record_applyCalls_le P l2 (applyCalls P w l1)
    simpa [applyCalls, List.foldl_append] using h
  · induction calls generalizing w with
    | nil => rfl
    | cons c t ih =>
        have hstep := record_step_eq P w c.price c.slot c.now c.today h0
        have hnext : 0 ≤ (WeekData.set_price P w c.price c.slot c.now c.today).record.price :=
          le_trans h0 (record_step_le P w c.price c.slot c.now c.today)
        have hrec := ih (WeekData.set_price P w c.price c.slot c.now c.today) hnext
        simp only [applyCalls, List.foldl_cons] at hrec ⊢
        rw [hrec, hstep]
        simp only [posFold, List.foldl_cons]

/-- A reachable ledger whose record already stands at 200 (as after a
200-price week). -/
def wRec200 : WeekData :=
  { mkWeekData "record island" with record := { price := 200, date := 0, is_am := false } }

/-- A single call logging price 100 at Monday_AM during the current week. -/
def call100 : Call := { price := 100, slot := mondayAM, now := ⟨6, 0⟩, today := 6 }

/-- Counterexample to C3 as stated: on a ledger whose record price is
already 200, a sequence whose only positive logged price is 100 ends with
`record.price = 200`, not the maximum (100) of the positive prices passed. -/
theorem record_price_counterexample :
    (applyCalls Ptriv wRec200 [call100]).record.price = 200 ∧
    ([call100].filterMap fun c => if 0 < c.price then some c.price else none) = [100] ∧
    (200 : Int) ≠ 100 := by
  refine ⟨by decide, by decide, by decide⟩

/-- Witness for the amended C3 at a concrete input: a freshly constructed
ledger (record price 0) and one positive call. -/
theorem record_price_monotone_max_witness :
    (applyCalls Ptriv (mkWeekData "w") [call100]).record.price
      = posFold [call100] (mkWeekData "w").record.price :=
  (record_price_monotone_max Ptriv (mkWeekData "w") [call100] (by decide)).2

/-- C7 (amended) helper: one `set_price` step with a nonnegative price
preserves positivity of every stored timeline price. -/
theorem timeline_step_positive (P : Provider) (w : WeekData) (price : Int) (time : Fin 14)
    (now : DT) (today : Int) (h0 : ∀ t v, w.timeline t = some v → 0 < v)
    (hp : 0 ≤ price) :
    ∀ t v, (WeekData.set_price P w price time now today).timeline t = some v → 0 < v := by
  intro t v hv
  rw [set_price_timeline] at hv
  by_cases ht : t = time
  · subst ht
    rw [Function.update_same] at hv
    by_cases hz : price = 0
    · simp [hz] at hv
    · rw [if_neg hz] at hv
      cases hv
      omega
  · rw [Function.update_noteq ht] at hv
    by_cases hcur : is_current_week w.updated now
    · rw [if_pos hcur] at hv
      exact h0 t v hv
    · rw [if_neg hcur] at hv
      cases hv

/-- C7 (amended): for every ledger whose timeline holds only positive
prices and every finite sequence of `set_price` calls with nonnegative
prices, the timeline afterwards never maps a slot to a zero or negative
price (a zero price deletes the slot).  Note negative prices are *not*
rejected anywhere in the program, which is why the hypothesis is needed:
see `timeline_negative_price_counterexample`. -/
theorem timeline_positive_invariant (P : Provider) (w : WeekData) (calls : List Call)
    (h0 : ∀ t v, w.timeline t = some v → 0 < v)
    (hc : ∀ c ∈ calls, 0 ≤ c.price) :
    ∀ t v, (applyCalls P w calls).timeline t = some v → 0 < v := by
  induction calls generalizing w with
  | nil => exact h0
  | cons c t ih =>
      have hstep := timeline_step_positive P w c.price c.slot c.now c.today h0
        (hc c (List.mem_cons_self c t))
      exact ih (WeekData.set_price P w c.price c.slot c.now c.today) hstep
        (fun c' hc' => hc c' (List.mem_cons_of_mem c hc'))

/-- Counterexample to C7 as stated: `set_price` guards only against
`price == 0`, so a negative price flows straight into the timeline. -/
theorem timeline_negative_price_counterexample :
    (WeekData.set_price Ptriv (mkWeekData "neg") (-5) mondayAM ⟨6, 0⟩ 6).timeline mondayAM
      = some (-5) := by decide

/-- Witness for the amended C7 at a concrete input: a fresh ledger, one call
of price 100, slot Monday_AM holds 100 which is positive. -/
theorem timeline_positive_invariant_witness :
    (∀ c ∈ [call100], 0 ≤ c.price) ∧ (0 : Int) < 100 :=
  ⟨by decide,
    timeline_positive_invariant Ptriv (mkWeekData "w2") [call100]
      (fun t v hv => by simp [mkWeekData] at hv) (by decide) mondayAM 100 (by decide)⟩

/-- The fixed 4×4 transition-weight matrix of `WeekData.predictions`
(rows = previous-week pattern, columns = current pattern). -/
def weights : List (List ℚ) :=
  [[20, 30, 15, 35],
   [50, 5, 20, 25],
   [25, 45, 5, 25],
   [45, 25, 15, 15]]

/-- The fixed per-pattern population counts (`expected_patterns` in
`WeekData.predictions`): how many model variants the provider enumerates
per pattern. -/
def expected_patterns : List ℚ := [56, 7, 1, 8]

/-- One assignment of the loop body in `WeekData.predictions`:
`count / expected_patterns[v] * expected_weights[v]` for a candidate
pattern with its count, where `expected_weights = weights[prev.value]`. -/
def patternWeight (prev : ModelEnum) (pc : ModelEnum × Nat) : ℚ :=
  (pc.2 : ℚ) / expected_patterns.getD pc.1.value 0
    * (weights.getD prev.value []).getD pc.1.value 0

/-- The `probabilities` array built by `WeekData.predictions`: start from
`[0, 0, 0, 0]` and assign `patternWeight` at each candidate pattern's index
(indices as a function `Nat → ℚ`; only indices 0–3 are ever read). -/
def probabilitiesFun (patterns : List (ModelEnum × Nat)) (prev : ModelEnum) : Nat → ℚ :=
  patterns.foldl (fun probs pc => Function.update probs pc.1.value (patternWeight prev pc))
    (fun _ => 0)

/-- `sum(probabilities)`: the sum of the four array slots. -/
def sum4 (f : Nat → ℚ) : ℚ := ((List.range 4).map f).sum

/-- The normalisation denominator of `WeekData.predictions`. -/
def probSum (patterns : List (ModelEnum × Nat)) (prev : ModelEnum) : ℚ :=
  sum4 (probabilitiesFun patterns prev)

/-- Rendering a rational to one decimal place (the `:.1f` format of the
percentage strings), modelled as exact rounding of `10 x` to the nearest
integer. -/
def round1 (x : ℚ) : ℚ := (round (10 * x) : ℤ) / 10

/-- The percentage reported for array slot `v`:
`factor / sum(probabilities) * 100` rendered to one decimal place. -/
def reportedPercent (patterns : List (ModelEnum × Nat)) (prev : ModelEnum) (v : Nat) : ℚ :=
  round1 (probabilitiesFun patterns prev v / probSum patterns prev * 100)

/-- `ModelEnum.value` is injective. -/
theorem modelEnum_value_injective :
    ∀ a b : ModelEnum, a.value = b.value → a = b := by
  intro a b h
  cases a <;> cases b <;> simp_all [ModelEnum.value]

/-- A slot not assigned by any list entry keeps its initial value. -/
theorem probabilities_foldl_of_notMem (prev : ModelEnum) (l : List (ModelEnum × Nat))
    (f0 : Nat → ℚ) (v : Nat) (h : ∀ pc ∈ l, pc.1.value ≠ v) :
    (l.foldl (fun probs pc => Function.update probs pc.1.value (patternWeight prev pc)) f0) v
      = f0 v := by
  induction l generalizing f0 with
  | nil => rfl
  | cons a t ih =>
      rw [List.foldl_cons, ih _ (fun pc hpc => h pc (List.mem_cons_of_mem a hpc)),
        Function.update_noteq]
      exact fun hv => h a (List.mem_cons_self a t) hv.symm

/-- With pairwise-distinct pattern indices, the array slot of each listed
pattern ends at exactly its `patternWeight`. -/
theorem probabilities_foldl_of_mem (prev : ModelEnum) (l : List (ModelEnum × Nat))
    (f0 : Nat → ℚ) (pc : ModelEnum × Nat)
    (hnd : (l.map fun pc => pc.1.value).Nodup) (hmem : pc ∈ l) :
    (l.foldl (fun probs pc => Function.update probs pc.1.value (patternWeight prev pc)) f0)
        pc.1.value
      = patternWeight prev pc := by
  induction l generalizing f0 with
  | nil => cases hmem
  | cons a t ih =>
      rw [List.map_cons, List.nodup_cons] at hnd
      rcases List.mem_cons.mp hmem with rfl | hmem'
      · have hno : ∀ qc ∈ t, qc.1.value ≠ pc.1.value := by
          intro qc hqc hv
          exact hnd.1
            (by simpa [hv] using
              List.mem_map_of_mem (fun r : ModelEnum × Nat => r.1.value) hqc)
        rw [List.foldl_cons, probabilities_foldl_of_notMem prev t _ pc.1.value hno,
          Function.update_same]
      · rw [List.foldl_cons]
        exact ih _ hnd.2 hmem'

/-- The `probabilities` slot of each surviving pattern holds exactly its
weight. -/
theorem probabilitiesFun_of_mem (patterns : List (ModelEnum × Nat)) (prev : ModelEnum)
    (pc : ModelEnum × Nat) (hnd : (patterns.map fun pc => pc.1.value).Nodup)
    (hmem : pc ∈ patterns) :
    probabilitiesFun patterns prev pc.1.value = patternWeight prev pc :=
  probabilities_foldl_of_mem prev patterns _ pc hnd hmem

/-- Summing the four slots after one assignment. -/
theorem sum4_update (f : Nat → ℚ) (v : Nat) (x : ℚ) (hv : v < 4) :
    sum4 (Function.update f v x) = sum4 f + x - f v := by
  have hr : List.range 4 = [0, 1, 2, 3] := rfl
  interval_cases v <;> simp [sum4, hr, Function.update_apply] <;> ring

/-- The sum of the four array slots after the whole fill loop. -/
theorem sum4_foldl (prev : ModelEnum) (l : List (ModelEnum × Nat)) (f0 : Nat → ℚ)
    (hnd : (l.map fun pc => pc.1.value).Nodup) (hlt : ∀ pc ∈ l, pc.1.value < 4) :
    sum4 (l.foldl (fun probs pc => Function.update probs pc.1.value (patternWeight prev pc)) f0)
      = sum4 f0 + ((l.map fun pc => patternWeight prev pc - f0 pc.1.value)).sum := by
  induction l generalizing f0 with
  | nil => simp
  | cons a t ih =>
      rw [List.map_cons, List.nodup_cons] at hnd
      rw [List.foldl_cons, ih _ hnd.2 (fun pc hpc => hlt pc (List.mem_cons_of_mem a hpc)),
        sum4_update f0 a.1.value (patternWeight prev a) (hlt a (List.mem_cons_self a t))]
      have hupd : ∀ pc ∈ t, Function.update f0 a.1.value (patternWeight prev a) pc.1.value
          = f0 pc.1.value := by
        intro pc hpc
        have hne : pc.1.value ≠ a.1.value := by
          intro hv
          exact hnd.1
            (by simpa [hv] using
              List.mem_map_of_mem (fun r : ModelEnum × Nat => r.1.value) hpc)
        exact Function.update_noteq hne _ _
      rw [List.map_congr_left (fun pc hpc => by rw [hupd pc hpc])]
      simp only [List.map_cons, List.sum_cons]
      ring

/-- The normalisation denominator equals the sum of the pattern weights of
the surviving patterns. -/
theorem probSum_eq (patterns : List (ModelEnum × Nat)) (prev : ModelEnum)
    (hnd : (patterns.map fun pc => pc.1.value).Nodup)
    (hlt : ∀ pc ∈ patterns, pc.1.value < 4) :
    probSum patterns prev = (patterns.map (patternWeight prev)).sum := by
  unfold probSum probabilitiesFun
  rw [sum4_foldl prev patterns _ hnd hlt]
  simp [sum4]

/-- Each pattern weight is strictly positive when the previous pattern is
known, the candidate pattern is real, and its count is positive (every
matrix entry and population count is positive). -/
theorem patternWeight_pos (prev : ModelEnum) (pc : ModelEnum × Nat)
    (hprev : prev ≠ ModelEnum.unknown) (hpc : pc.1 ≠ ModelEnum.unknown) (hc : 0 < pc.2) :
    0 < patternWeight prev pc := by
  obtain ⟨p, c⟩ := pc
  have hc' : (0 : ℚ) < (c : ℚ) := by exact_mod_cast hc
  cases prev <;> cases p <;>
    simp_all [patternWeight, expected_patterns, weights, ModelEnum.value]

/-- `round1` renders within 1/20 of its argument. -/
theorem round1_err (x : ℚ) : |round1 x - x| ≤ 1 / 20 := by
  have h := abs_sub_round (10 * x)
  rw [abs_sub_comm] at h
  have hx : round1 x - x = (((round (10 * x) : ℤ) : ℚ) - 10 * x) / 10 := by
    unfold round1
    ring
  rw [hx, abs_div, abs_of_pos (by norm_num : (0 : ℚ) < 10)]
  linarith

/-- C2: pattern-probability weighting in `WeekData.predictions`.  With the
previous-week pattern known and at least two distinct candidate patterns
(`patterns` being the distinct candidate patterns with their positive
counts, i.e. `Counter(model_name).most_common()`; ordering is irrelevant to
the computed values), the probability reported for each surviving pattern
is its `count / N * W[prev]` weight normalised by the sum of those weights,
and with exactly two surviving patterns the two percentages rendered to one
decimal place sum to 100.0 within ±0.1. -/
theorem predictions_weighting (patterns : List (ModelEnum × Nat)) (prev : ModelEnum)
    (hprev : prev ≠ ModelEnum.unknown)
    (hnu : ∀ pc ∈ patterns, pc.1 ≠ ModelEnum.unknown)
    (hkeys : (patterns.map Prod.fst).Nodup)
    (hpos : ∀ pc ∈ patterns, 0 < pc.2)
    (hlen : 2 ≤ patterns.length) :
    (∀ pc ∈ patterns,
        probabilitiesFun patterns prev pc.1.value / probSum patterns prev
          = patternWeight prev pc / (patterns.map (patternWeight prev)).sum) ∧
    (∀ p1 c1 p2 c2, patterns = [(p1, c1), (p2, c2)] →
        |reportedPercent patterns prev p1.value + reportedPercent patterns prev p2.value
            - 100| ≤ 1 / 10) := by
  have hnd : (patterns.map fun pc => pc.1.value).Nodup := by
    have : (patterns.map fun pc => pc.1.value) = (patterns.map Prod.fst).map ModelEnum.value := by
      simp [List.map_map, Function.comp]
    rw [this]
    exact hkeys.map (fun a b hab => modelEnum_value_injective a b hab)
  have hlt : ∀ pc ∈ patterns, pc.1.value < 4 := by
    intro pc hpc
    have := hnu pc hpc
    cases h : pc.1 <;> simp_all [ModelEnum.value]
  constructor
  · intro pc hpc
    rw [probabilitiesFun_of_mem patterns prev pc hnd hpc, probSum_eq patterns prev hnd hlt]
  · rintro p1 c1 p2 c2 rfl
    have h1 : probabilitiesFun [(p1, c1), (p2, c2)] prev p1.value
        = patternWeight prev (p1, c1) :=
      probabilitiesFun_of_mem _ prev (p1, c1) hnd (by simp)
    have h2 : probabilitiesFun [(p1, c1), (p2, c2)] prev p2.value
        = patternWeight prev (p2, c2) :=
      probabilitiesFun_of_mem _ prev (p2, c2) hnd (by simp)
    have hS : probSum [(p1, c1), (p2, c2)] prev
        = patternWeight prev (p1, c1) + patternWeight prev (p2, c2) := by
      rw [probSum_eq _ prev hnd hlt]
      simp
    have hw1 : 0 < patternWeight prev (p1, c1) :=
      patternWeight_pos prev (p1, c1) hprev (hnu (p1, c1) (by simp)) (hpos (p1, c1) (by simp))
    have hw2 : 0 < patternWeight prev (p2, c2) :=
      patternWeight_pos prev (p2, c2) hprev (hnu (p2, c2) (by simp)) (hpos (p2, c2) (by simp))
    set w1 := patternWeight prev (p1, c1) with hw1def
    set w2 := patternWeight prev (p2, c2) with hw2def
    have hsum : w1 / (w1 + w2) * 100 + w2 / (w1 + w2) * 100 = 100 := by
      field_simp
      ring
    have e1 := round1_err (w1 / (w1 + w2) * 100)
    have e2 := round1_err (w2 / (w1 + w2) * 100)
    have hr1 : reportedPercent [(p1, c1), (p2, c2)] prev p1.value
        = round1 (w1 / (w1 + w2) * 100) := by
      unfold reportedPercent
      rw [h1, hS]
    have hr2 : reportedPercent [(p1, c1), (p2, c2)] prev p2.value
        = round1 (w2 / (w1 + w2) * 100) := by
      unfold reportedPercent
      rw [h2, hS]
    rw [hr1, hr2]
    rw [abs_le] at e1 e2 ⊢
    constructor <;> linarith

/-- Witness for C2 at a concrete input: previous week `decay`, candidates
`{triple: 2, spike: 1}`.  The two rendered percentages (12.2% and 87.8%)
sum to 100.0. -/
theorem predictions_weighting_witness :
    |reportedPercent [(ModelEnum.triple, 2), (ModelEnum.spike, 1)] ModelEnum.decay
        ModelEnum.triple.value
      + reportedPercent [(ModelEnum.triple, 2), (ModelEnum.spike, 1)] ModelEnum.decay
        ModelEnum.spike.value - 100| ≤ 1 / 10 :=
  (predictions_weighting [(ModelEnum.triple, 2), (ModelEnum.spike, 1)] ModelEnum.decay
    (by decide) (by decide) (by decide) (by decide) (by decide)).2
    ModelEnum.triple 2 ModelEnum.spike 1 rfl

/-- Modelled from the spec: `RangeSet` is implemented in the external
`turnips.multi` module (not under src).  The spec describes it as a merged
interval set over the integers added to it; the aggregation claims only
need the set of covered integers and emptiness, so it is modelled as the
list of distinct values added (the interval rendering is presentational). -/
structure RangeSet where
  vals : List Int
deriving DecidableEq, Repr

/-- The empty `RangeSet()`. -/
def RangeSet.empty : RangeSet := ⟨[]⟩

/-- `RangeSet.add(value)`: adding an already-covered value is a no-op. -/
def RangeSet.add (rs : RangeSet) (v : Int) : RangeSet :=
  if v ∈ rs.vals then rs else ⟨rs.vals ++ [v]⟩

/-- The three confidence tiers `_islands_to_stats` assigns
(`"possibility"`, `"range"`, `"fixed"`). -/
inductive Confidence where
  | possibility
  | range
  | fixed
deriving DecidableEq, Repr

/-- `db.StatBundle`: the per-island per-slot entry.  `price_range` holds the
histogram mapping price ↦ model count that the code stores there. -/
structure StatBundle where
  price_range : List (Int × Nat)
  name : String
  confidence : Confidence
deriving DecidableEq, Repr

/-- `db.PriceBundle`: the merged per-slot aggregate. -/
structure PriceBundle where
  prices : RangeSet
  _top_prices : List StatBundle
deriving DecidableEq, Repr

/-- `PriceBundle()` with its default factories. -/
def PriceBundle.empty : PriceBundle := ⟨RangeSet.empty, []⟩

/-- `PriceBundle.add_price`: append a contributor. -/
def PriceBundle.add_price (pb : PriceBundle) (s : StatBundle) : PriceBundle :=
  { pb with _top_prices := pb._top_prices ++ [s] }

/-- The confidence classification of `_islands_to_stats` (db.py:54-58),
written as the code's sequence of overwrites: start at `possibility`,
upgrade to `range` when the current pattern is known, upgrade to `fixed`
when the slot is literally present in the island's timeline. -/
def statConfidence (P : Provider) (island : WeekData) (t : Fin 14) : Confidence :=
  let price_type := Confidence.possibility
  let price_type :=
    if island.current_pattern P ≠ ModelEnum.unknown then Confidence.range else price_type
  let price_type :=
    if (island.timeline t).isSome then Confidence.fixed else price_type
  price_type

/-- `island.models.histogram()`: per-slot price histograms via the
provider, fed the same inputs as `WeekData.models`. -/
def WeekData.histogramOf (P : Provider) (w : WeekData) : List (Fin 14 × List (Int × Nat)) :=
  P.histogram w._initial_week (modelsBase w.timeline) (fixedPrices w.timeline)

/-- `stats.get(time, PriceBundle())`-style lookup in the slot-keyed dict,
modelled as an association list. -/
def statsGet (stats : List (Fin 14 × PriceBundle)) (t : Fin 14) : Option PriceBundle :=
  (stats.find? fun p => p.1 == t).map Prod.snd

/-- `stats[time] = current_stat`: replace the binding or append a new one. -/
def statsSet (stats : List (Fin 14 × PriceBundle)) (t : Fin 14) (v : PriceBundle) :
    List (Fin 14 × PriceBundle) :=
  if (stats.find? fun p => p.1 == t).isSome then
    stats.map fun p => if p.1 == t then (t, v) else p
  else stats ++ [(t, v)]

/-- `db._islands_to_stats`: scan each island's histogram, skipping islands
not in the current week, merging each slot's possible prices into the
shared RangeSet and recording a `StatBundle` per island per slot. -/
def _islands_to_stats (P : Provider) (islands : List WeekData) (now : DT) :
    List (Fin 14 × PriceBundle) :=
  islands.foldl (fun stats island =>
    (WeekData.histogramOf P island).foldl (fun stats pair =>
      if ¬ is_current_week island.updated now then stats
      else
        let current_stat := (statsGet stats pair.1).getD PriceBundle.empty
        let current_stat :=
          { current_stat with
              prices := pair.2.foldl (fun (rs : RangeSet) (pc : Int × Nat) => rs.add pc.1) current_stat.prices }
        let current_stat := current_stat.add_price
          { price_range := pair.2
            name := island.name
            confidence := statConfidence P island pair.1 }
        statsSet stats pair.1 current_stat) stats) []

/-- Modelled from the spec: `WeekData.has_week_data` is referenced by
`db.all_stats` and `db.meta_stats` but is not defined anywhere under src.
The call site's comment says "Only report islands with non-Sunday data",
and the spec's aggregator takes ledgers with current-week data; modelled as
"some slot at or after Monday_AM is present in the timeline". -/
def has_week_data (w : WeekData) : Bool :=
  (List.finRange 14).any fun t => 2 ≤ t.val && (w.timeline t).isSome

/-- The exceptions `db.all_stats` can raise: `KeyError` from subscripting
the stats dict, and `TypeError` from `max(15, *(...))` when the splat is
empty — Python's `max` over a single int argument (db.py:129). -/
inductive PyErr where
  | keyError
  | typeError
deriving DecidableEq, Repr

/-- `stats[TimePeriod(i).name]`: dict subscription, which raises `KeyError`
when the slot has no entry. -/
def lookupStat (stats : List (Fin 14 × PriceBundle)) (i : Nat) : Except PyErr PriceBundle :=
  match stats.find? (fun p => p.1.val == i) with
  | some p => Except.ok p.2
  | none => Except.error PyErr.keyError

/-- `max(first, *rest)`: with an empty splat Python sees a single int
positional argument, treats it as the iterable form of `max`, and raises
`TypeError: 'int' object is not iterable`; otherwise it is the maximum of
the arguments. -/
def pyMaxSplat (first : Nat) (rest : List Nat) : Except PyErr Nat :=
  match rest with
  | [] => Except.error PyErr.typeError
  | _ => Except.ok (rest.foldl max first)

/-- Modelled from the spec: `len(str(stat.prices))` at db.py:129 measures
the RangeSet's comma-joined string rendering, which lives in the external
`turnips.multi` module and is presentational; only the arity of the
resulting argument list is load-bearing (the value itself is only used to
pad the output strings, which are dropped), so any per-bundle length
serves. -/
def lenStrPrices (rs : RangeSet) : Nat := rs.vals.length

/-- `top_prices[:length]`: the top-N slice taken by `db._top_islands`. -/
def topSlice (l : List StatBundle) (n : Nat) : List StatBundle := l.take n

/-- `db.all_stats`, reduced to its data accesses: filter stored ledgers by
`has_week_data`, aggregate, subscript the stats dict for today's AM/PM
slots when today is not Sunday, evaluate
`longest_price_set = max(15, *(len(str(stat.prices)) for stat in
stats.values()))` (db.py:129), then subscript every remaining slot of the
week.  String layout is dropped; what remains is exactly which bundles are
read and whether a step raises. -/
def all_stats (P : Provider) (store : List WeekData) (now : DT) :
    Except PyErr (List PriceBundle) := do
  let islands := store.filter fun w => has_week_data w
  let stats := _islands_to_stats P islands now
  let start := now.weekday * 2
  let headPart ←
    if start ≠ 0 then do
      let a ← lookupStat stats start
      let b ← lookupStat stats (start + 1)
      pure [a, b]
    else pure []
  let start := start + 2
  let _longest ← pyMaxSplat 15 (stats.map fun p => lenStrPrices p.2.prices)
  let rest ← (List.range' start (14 - start)).mapM fun i => lookupStat stats i
  pure (headPart ++ rest)

/-- The slot `TimePeriod.Monday_PM` would be 3; fixture slot index 3. -/
def slot3 : Fin 14 := ⟨3, by decide⟩

/-- Provider fixture for the C5 counterexample: two disagreeing candidate
patterns, and a single-keyed histogram `{100: 2}` at slot 3. -/
def Pc5 : Provider :=
  ⟨fun _ _ _ => [ModelEnum.triple, ModelEnum.spike],
   fun _ _ _ => [(slot3, [(100, 2)])]⟩

/-- A current-week island with an empty timeline. -/
def wC5 : WeekData := { mkWeekData "island five" with updated := ⟨6, 0⟩ }

/-- The evaluation instant for the C5 counterexample (same Saturday). -/
def nowC5 : DT := ⟨6, 3600⟩

/-- Counterexample to C5 as stated: at slot 3 the histogram has exactly one
price key, yet the recorded confidence is `possibility`, not `fixed` — the
code marks `fixed` only when the slot is literally in the timeline, never
from a single-keyed histogram. -/
theorem slot_confidence_counterexample :
    WeekData.histogramOf Pc5 wC5 = [(slot3, [(100, 2)])] ∧
    ((_islands_to_stats Pc5 [wC5] nowC5).map fun p =>
        (p.1.val, p.2._top_prices.map fun s => s.confidence))
      = [(3, [Confidence.possibility])] ∧
    Confidence.possibility ≠ Confidence.fixed := by
  refine ⟨rfl, by decide, by decide⟩

/-- C5 (amended): the confidence recorded per ledger and slot is `fixed`
exactly when the slot is literally present in the ledger's timeline,
`range` exactly when the slot is absent and the candidate models agree on a
single pattern kind (`current_pattern ≠ unknown`), and `possibility`
exactly when the slot is absent and `current_pattern = unknown` (candidate
kinds disagree or no candidate remains); a single-keyed histogram alone
never yields `fixed`. -/
theorem slot_confidence_characterization (P : Provider) (island : WeekData) (t : Fin 14) :
    (statConfidence P island t = Confidence.fixed ↔ (island.timeline t).isSome = true) ∧
    (statConfidence P island t = Confidence.range ↔
      ((island.timeline t).isSome = false ∧
        island.current_pattern P ≠ ModelEnum.unknown)) ∧
    (statConfidence P island t = Confidence.possibility ↔
      ((island.timeline t).isSome = false ∧
        island.current_pattern P = ModelEnum.unknown)) := by
  unfold statConfidence
  by_cases h1 : (island.timeline t).isSome <;>
    by_cases h2 : island.current_pattern P = ModelEnum.unknown <;>
    simp [h1, h2]

/-- Islands that are not in the current week contribute nothing: the inner
histogram loop of `_islands_to_stats` skips every item. -/
theorem islands_to_stats_skip (P : Provider) (island : WeekData) (now : DT)
    (h : ¬ is_current_week island.updated now) (l : List (Fin 14 × List (Int × Nat)))
    (stats : List (Fin 14 × PriceBundle)) :
    l.foldl (fun stats pair =>
      if ¬ is_current_week island.updated now then stats
      else
        let current_stat := (statsGet stats pair.1).getD PriceBundle.empty
        let current_stat :=
          { current_stat with
              prices := pair.2.foldl (fun (rs : RangeSet) (pc : Int × Nat) => rs.add pc.1) current_stat.prices }
        let current_stat := current_stat.add_price
          { price_range := pair.2
            name := island.name
            confidence := statConfidence P island pair.1 }
        statsSet stats pair.1 current_stat) stats = stats := by
  induction l generalizing stats with
  | nil => rfl
  | cons a t ih =>
      rw [List.foldl_cons, if_pos h]
      exact ih stats

/-- With no current-week island in the input, `_islands_to_stats` returns
the empty mapping. -/
theorem islands_to_stats_empty (P : Provider) (islands : List WeekData) (now : DT)
    (h : ∀ w ∈ islands, ¬ is_current_week w.updated now) :
    _islands_to_stats P islands now = [] := by
  unfold _islands_to_stats
  suffices hgen : ∀ (l : List WeekData) (stats : List (Fin 14 × PriceBundle)),
      (∀ w ∈ l, ¬ is_current_week w.updated now) →
      l.foldl (fun stats island =>
        (WeekData.histogramOf P island).foldl (fun stats pair =>
          if ¬ is_current_week island.updated now then stats
          else
            let current_stat := (statsGet stats pair.1).getD PriceBundle.empty
            let current_stat :=
              { current_stat with
                  prices := pair.2.foldl (fun (rs : RangeSet) (pc : Int × Nat) => rs.add pc.1) current_stat.prices }
            let current_stat := current_stat.add_price
              { price_range := pair.2
                name := island.name
                confidence := statConfidence P island pair.1 }
            statsSet stats pair.1 current_stat) stats) stats = stats by
    exact hgen islands [] h
  intro l
  induction l with
  | nil => intro stats _; rfl
  | cons a t ih =>
      intro stats hl
      rw [List.foldl_cons,
        islands_to_stats_skip P a now (hl a (List.mem_cons_self a t)) _ stats]
      exact ih stats (fun w hw => hl w (List.mem_cons_of_mem a hw))

/-- C6 (amended): when no stored ledger is in the current-week state
(including an empty store), the aggregation map is empty — no slot has an
entry at all, so per-slot reads find no RangeSet and no contributors — and
`all_stats` does not return normally: on a non-Sunday it raises `KeyError`
at the day's first slot subscription, and on a Sunday (where the per-day
block is skipped) it raises `TypeError` at
`longest_price_set = max(15, *(...))`, Python's `max` over a single int
argument.  The top-N slice itself does tolerate fewer than N contributors,
returning just what is available. -/
theorem empty_aggregation (P : Provider) (store : List WeekData) (now : DT)
    (h : ∀ w ∈ store, ¬ is_current_week w.updated now) :
    _islands_to_stats P (store.filter fun w => has_week_data w) now = [] ∧
    all_stats P store now
      = Except.error (if now.weekday = 0 then PyErr.typeError else PyErr.keyError) ∧
    (∀ (l : List StatBundle) (n : Nat), l.length ≤ n → topSlice l n = l) := by
  have hstats : _islands_to_stats P (store.filter fun w => has_week_data w) now = [] :=
    islands_to_stats_empty P _ now
      (fun w hw => h w (List.mem_of_mem_filter hw))
  refine ⟨hstats, ?_, fun l n hn => List.take_of_length_le hn⟩
  unfold all_stats
  simp only [hstats]
  by_cases hw : now.weekday = 0
  · simp [hw, pyMaxSplat, Bind.bind, Except.bind, Pure.pure, Except.pure]
  · have hne : now.weekday * 2 ≠ 0 := by omega
    simp [hw, hne, lookupStat, Bind.bind, Except.bind]

/-- Counterexample to C6 as stated: with zero stored ledgers (so certainly
none in the current week) the town-wide aggregation `all_stats` does not
return normally — on a Wednesday it raises a key lookup error at the first
slot subscription. -/
theorem all_stats_error_counterexample :
    all_stats Ptriv [] ⟨3, 0⟩ = Except.error PyErr.keyError := rfl

/-- Witness for the amended C6 at a concrete input: the empty store on a
Sunday, where `max(15, *(...))` over the empty stats dict raises
`TypeError` before any slot subscription. -/
theorem empty_aggregation_witness :
    all_stats Ptriv [] ⟨0, 0⟩ = Except.error PyErr.typeError :=
  (empty_aggregation Ptriv [] ⟨0, 0⟩ (by intro w hw; cases hw)).2.1

/-- The local hour of a datetime (`timestamp.hour`). -/
def DT.hour (d : DT) : Nat := d.sec / 3600

/-- The weekday index is always below 7. -/
theorem DT.weekday_lt (d : DT) : d.weekday < 7 := by
  unfold DT.weekday
  omega

/-- The three failure sub-cases of `utils.datetime_to_timeperiod`, each
raised as a `ValueError` with its own guidance message (too early in the
morning; Daisy Mae has already left on Sunday; the shop is closed for the
day).  The message texts are presentational; the constructor identifies the
sub-case. -/
inductive InferError where
  | tooEarly
  | sundayDeparted
  | shopClosed
deriving DecidableEq, Repr

/-- `utils.datetime_to_timeperiod`: from a local timestamp, reject hours
before 8, Sunday from noon on, and hours from 22 on (in that order);
otherwise infer slot `weekday * 2 + (0 if hour < 12 else 1)`. -/
def datetime_to_timeperiod (ts : DT) : Except InferError (Fin 14) :=
  let weekday := ts.weekday
  if ts.hour < 8 then Except.error InferError.tooEarly
  else if weekday == 0 && 12 ≤ ts.hour then Except.error InferError.sundayDeparted
  else if 22 ≤ ts.hour then Except.error InferError.shopClosed
  else Except.ok ⟨weekday * 2 + (if ts.hour < 12 then 0 else 1),
    by have := ts.weekday_lt; split <;> omega⟩

/-- Modelled from the spec: the external timezone resolver (`dateutil.tz`)
is out of scope; per the spec "unset means unknown", `data.timezone` is
truthy iff a zone name is stored. -/
def timezoneKnown (w : WeekData) : Bool := w.tz_name != ""

/-- The outcome of `db.log`, with the message strings replaced by
constructors: the missing-timezone guidance, the slot-inference
`ValueError` messages, or the empty-string success return. -/
inductive LogResult where
  | noTimezone
  | inferError (e : InferError)
  | ok
deriving DecidableEq, Repr

/-- The default ledger `db.log` creates for an unseen key:
`WeekData(name=f"Island {key[-3:]}", timeline={})`. -/
def defaultIslandFor (key : String) : WeekData :=
  mkWeekData ("Island " ++ key.takeRight 3)

/-- `db.log` (db.py:155-186), with the store abstracted to a key-indexed
map (the shelve file) and the Discord context reduced to the message's
creation instant already converted to the ledger's local time
(`localNow`).  An explicit slot skips inference; without one, a ledger
with no timezone or an out-of-window timestamp fails with the matching
message and no mutation; otherwise the inferred or given slot is priced
and the ledger stored back. -/
def log (P : Provider) (store : String → Option WeekData) (key : String) (price : Int)
    (slotArg : Option (Fin 14)) (localNow : DT) (today : Int) :
    LogResult × (String → Option WeekData) :=
  let data := (store key).getD (defaultIslandFor key)
  match slotArg with
  | some t =>
      let data := data.set_price P price t localNow today
      (LogResult.ok, Function.update store key (some data))
  | none =>
      if ¬ timezoneKnown data then (LogResult.noTimezone, store)
      else
        match datetime_to_timeperiod localNow with
        | Except.error e => (LogResult.inferError e, store)
        | Except.ok t =>
            let data := data.set_price P price t localNow today
            (LogResult.ok, Function.update store key (some data))

/-- C8: out-of-window inference in `db.log`.  For a request without an
explicit slot (and with the ledger's timezone known, so inference runs):
each of the three out-of-window sub-cases fails with its own specific
error and the store is returned unchanged — no field of any stored ledger
is mutated; for a timestamp inside the window the inferred slot index is
`weekday * 2 + (0 for AM, 1 for PM)` with weekday 0 = Sunday, is never the
invalid Sunday_PM slot (index 1), and the write proceeds with exactly that
slot. -/
theorem log_inference_window (P : Provider) (store : String → Option WeekData)
    (key : String) (price : Int) (localNow : DT) (today : Int)
    (htz : timezoneKnown ((store key).getD (defaultIslandFor key)) = true) :
    (localNow.hour < 8 →
      log P store key price none localNow today
        = (LogResult.inferError InferError.tooEarly, store)) ∧
    (8 ≤ localNow.hour → localNow.weekday = 0 → 12 ≤ localNow.hour →
      log P store key price none localNow today
        = (LogResult.inferError InferError.sundayDeparted, store)) ∧
    (8 ≤ localNow.hour → ¬(localNow.weekday = 0 ∧ 12 ≤ localNow.hour) → 22 ≤ localNow.hour →
      log P store key price none localNow today
        = (LogResult.inferError InferError.shopClosed, store)) ∧
    (8 ≤ localNow.hour → ¬(localNow.weekday = 0 ∧ 12 ≤ localNow.hour) → localNow.hour < 22 →
      ∃ t : Fin 14, datetime_to_timeperiod localNow = Except.ok t ∧
        t.val = localNow.weekday * 2 + (if localNow.hour < 12 then 0 else 1) ∧
        t.val ≠ 1 ∧
        log P store key price none localNow today
          = (LogResult.ok, Function.update store key
              (some (((store key).getD (defaultIslandFor key)).set_price
                P price t localNow today)))) := by
  have hwd := localNow.weekday_lt
  refine ⟨?_, ?_, ?_, ?_⟩
  · intro h8
    simp [log, htz, datetime_to_timeperiod, h8]
  · intro h8 hw0 h12
    have hn8 : ¬ localNow.hour < 8 := by omega
    simp [log, htz, datetime_to_timeperiod, hw0, h12, hn8]
  · intro h8 hnotsun h22
    have hn8 : ¬ localNow.hour < 8 := by omega
    have h12 : ¬ (localNow.weekday == 0 && decide (12 ≤ localNow.hour)) = true := by
      simp only [Bool.and_eq_true, beq_iff_eq, decide_eq_true_eq]
      exact fun hc => hnotsun hc
    simp [log, htz, datetime_to_timeperiod, h12, h22, hn8]
  · intro h8 hnotsun h22
    have hn8 : ¬ localNow.hour < 8 := by omega
    have hn22 : ¬ 22 ≤ localNow.hour := by omega
    have h12 : ¬ (localNow.weekday == 0 && decide (12 ≤ localNow.hour)) = true := by
      simp only [Bool.and_eq_true, beq_iff_eq, decide_eq_true_eq]
      exact fun hc => hnotsun hc
    refine ⟨⟨localNow.weekday * 2 + (if localNow.hour < 12 then 0 else 1),
      by split <;> omega⟩, ?_, rfl, ?_, ?_⟩
    · simp [datetime_to_timeperiod, h12, hn8, hn22]
    · intro h1
      rcases Nat.lt_or_ge localNow.hour 12 with hlt | hge
      · simp [hlt] at h1
      · have hn12 : ¬ localNow.hour < 12 := by omega
        simp [hn12] at h1
        exact hnotsun ⟨by omega, hge⟩
    · simp [log, htz, datetime_to_timeperiod, h12, hn8, hn22]

/-- A store whose every key holds a ledger with a configured timezone. -/
def storeTz : String → Option WeekData :=
  fun _ => some { mkWeekData "tz island" with tz_name := "America/New_York" }

/-- Witness for C8 at a concrete input: 5 a.m. local time (second 18000 of
day 3) is before the 8 a.m. opening, so the log fails with the too-early
guidance and the store is unchanged. -/
theorem log_inference_window_witness :
    log Ptriv storeTz "key" 50 none ⟨3, 18000⟩ 9
      = (LogResult.inferError InferError.tooEarly, storeTz) :=
  (log_inference_window Ptriv storeTz "key" 50 ⟨3, 18000⟩ 9 (by decide)).1 (by decide)

/-- The store before the C4 scenario: no key has ever been seen. -/
def storeEmpty : String → Option WeekData := fun _ => none

/-- "Now" for the C4 scenario: 10 a.m. on day 2200 (a Tuesday, long after
the dataclass-default `updated`). -/
def c4now : DT := ⟨2200, 36000⟩

/-- The key logged in the C4 scenario. -/
def c4key : String := "123456789"

/-- The store after logging price 110 at Monday_AM on the fresh key. -/
def c4store1 : String → Option WeekData :=
  (log Ptriv storeEmpty c4key 110 (some mondayAM) c4now 2200).2

/-- The ledger created by that first log. -/
def c4w1 : WeekData := (c4store1 c4key).getD (mkWeekData "missing")

/-- The store after then logging price 0 at Monday_AM on the same key. -/
def c4store2 : String → Option WeekData :=
  (log Ptriv c4store1 c4key 0 (some mondayAM) c4now 2200).2

/-- The ledger after the zero-price log. -/
def c4w2 : WeekData := (c4store2 c4key).getD (mkWeekData "missing")

/-- C4, evaluated on the code: logging price 110 at Monday_AM for a
never-seen key creates a ledger whose timeline is exactly
`{Monday_AM: 110}` and whose record is `{price: 110, date: today}` — but
with `is_am = false`, because `set_price` computes the flag as
`time.value % 2 == 1`, which is true for PM slots (odd indices), not AM
ones; a subsequent log of price 0 at Monday_AM empties the timeline. -/
theorem fresh_key_log :
    storeEmpty c4key = none ∧
    (log Ptriv storeEmpty c4key 110 (some mondayAM) c4now 2200).1 = LogResult.ok ∧
    (c4store1 c4key).isSome = true ∧
    c4w1.timeline mondayAM = some 110 ∧
    (∀ t : Fin 14, t ≠ mondayAM → c4w1.timeline t = none) ∧
    c4w1.record.price = 110 ∧
    c4w1.record.date = 2200 ∧
    c4w1.record.is_am = false ∧
    (∀ t : Fin 14, c4w2.timeline t = none) := by
  exact ⟨rfl, rfl, rfl, by decide, by decide, by decide, by decide, by decide, by decide⟩

/-- A heap of Python `Record` objects, indexed by reference.  Python
evaluates the dataclass field default `record: Record = Record(0, date.min,
False)` once, when the class body runs, so every `WeekData` constructed
without an explicit record argument holds a reference to that single
module-level object, and `Record.set_price` mutates it in place. -/
structure PyHeap where
  recs : List Record
deriving DecidableEq, Repr

/-- Dereference a record. -/
def PyHeap.get (h : PyHeap) (r : Nat) : Record := h.recs.getD r ⟨0, 0, false⟩

/-- In-place update of a record object. -/
def PyHeap.set (h : PyHeap) (r : Nat) (v : Record) : PyHeap := ⟨h.recs.set r v⟩

/-- The reference held by the shared dataclass default `Record`. -/
def sharedDefaultRecordRef : Nat := 0

/-- The initial heap: just the module-level default `Record(0, date.min,
False)`. -/
def pyHeap0 : PyHeap := ⟨[{ price := 0, date := dateMin, is_am := false }]⟩

/-- `WeekData` at reference level: identical to `WeekData` except that the
record field is a heap reference. -/
structure PyWeekData where
  name : String
  timeline : Fin 14 → Option Int
  _initial_week : Bool
  _previous_week : ModelEnum
  updated : DT
  recordRef : Nat
  tz_name : String

/-- `WeekData(name=…, timeline={})` at reference level: the omitted
`record` argument makes the new ledger alias the shared default object. -/
def mkPyWeekData (name : String) : PyWeekData :=
  { name := name
    timeline := fun _ => none
    _initial_week := false
    _previous_week := ModelEnum.unknown
    updated := defaultUpdated
    recordRef := sharedDefaultRecordRef
    tz_name := "" }

/-- `WeekData.set_price` at reference level: the same statements as
`WeekData.set_price`, with the record read from and written through the
heap. -/
def pySetPrice (P : Provider) (h : PyHeap) (w : PyWeekData) (price : Int) (time : Fin 14)
    (now : DT) (today : Int) : PyHeap × PyWeekData :=
  let w1 :=
    if is_current_week w.updated now then w
    else
      let w0 :=
        if is_last_week w.updated now then
          { w with _previous_week := currentPatternOf P w._initial_week w.timeline,
                   _initial_week := false }
        else w
      { w0 with timeline := fun _ => none }
  if price ≠ 0 then
    let w2 := { w1 with timeline := Function.update w1.timeline time (some price),
                        updated := now }
    if (h.get w1.recordRef).price < price then
      (h.set w1.recordRef ((h.get w1.recordRef).set_price price (time.val % 2 == 1) today), w2)
    else (h, w2)
  else
    (h, { w1 with timeline := Function.update w1.timeline time none, updated := now })

/-- C9, evaluated on the code: two distinct ledgers created through the
default construction path share the single dataclass-default `Record`
object, so `set_price` on the first is observed through the second — its
record price jumps from 0 to 110 without any call on it. -/
theorem shared_default_record_aliasing :
    (mkPyWeekData "Island A").recordRef = (mkPyWeekData "Island B").recordRef ∧
    (pyHeap0.get (mkPyWeekData "Island B").recordRef).price = 0 ∧
    ((pySetPrice Ptriv pyHeap0 (mkPyWeekData "Island A") 110 mondayAM ⟨6, 0⟩ 6).1.get
        (mkPyWeekData "Island B").recordRef).price = 110 ∧
    (mkPyWeekData "Island A").name ≠ (mkPyWeekData "Island B").name := by
  exact ⟨rfl, rfl, by decide, by decide⟩

end Stonkbot
